import Mathlib

/-!
Verification of the worldql_server spatial persistence and subscription core.

The development shallowly embeds the Rust sources:
  * `src/subscriptions/area_map.rs` — the per-world subscription index `AreaMap`;
  * `src/database/client.rs` — `DatabaseClient` with `insert_records`,
    `insert_record` and `get_records_in_region`.

The backing PostgreSQL store is modelled as an explicit state (`PgState`):
existing shard tables, persisted rows, the world-region registry, plus a
fault oracle injecting arbitrary backing-store failures per call index.
Machine floats of the source (`f64` positions) are modelled as `Int`
coordinates; the grid/paritition logic under verification is unaffected.
-/

namespace WorldQL

/-- Peer identities (`uuid::Uuid` in the source), modelled abstractly. -/
abbrev Uuid := Nat

/-- A 3-dimensional position (`crate::structures::Vector3`). -/
structure Vector3 where
  x : Int
  y : Int
  z : Int
deriving DecidableEq, Repr

/-- Subscription-granularity grid cell (`crate::subscriptions::CubeArea`). -/
structure CubeArea where
  cell_x : Int
  cell_y : Int
  cell_z : Int
deriving DecidableEq, Repr

/-- Modelled from the spec: the `ToCubeArea` conversion for positions lives
outside the given sources; per the spec a `CubeArea` is derived by
floor-dividing each position coordinate by the configured `cube_size`. -/
def Vector3.to_cube_area (v : Vector3) (cube_size : Nat) : CubeArea :=
  { cell_x := Int.fdiv v.x cube_size
    cell_y := Int.fdiv v.y cube_size
    cell_z := Int.fdiv v.z cube_size }

/-- Association-list lookup for the `HashMap<CubeArea, HashSet<Uuid>>`. -/
def lookupCube : List (CubeArea × Finset Uuid) → CubeArea → Option (Finset Uuid)
  | [], _ => none
  | e :: rest, k => if e.1 = k then some e.2 else lookupCube rest k

/-- Association-list store: replaces the binding of `k` or appends a fresh one. -/
def setCube : List (CubeArea × Finset Uuid) → CubeArea → Finset Uuid →
    List (CubeArea × Finset Uuid)
  | [], k, v => [(k, v)]
  | e :: rest, k, v => if e.1 = k then (k, v) :: rest else e :: setCube rest k v

/-- Association-list removal of the binding of `k` (`HashMap::remove`). -/
def eraseCube : List (CubeArea × Finset Uuid) → CubeArea → List (CubeArea × Finset Uuid)
  | [], _ => []
  | e :: rest, k => if e.1 = k then rest else e :: eraseCube rest k

/-- The per-world subscription index (`AreaMap` in `area_map.rs`).
`HashMap<CubeArea, HashSet<Uuid>>` is modelled as an association list of
finite sets; hashing is irrelevant to the verified properties. -/
structure AreaMap where
  cube_size : Nat
  world_name : String
  map : List (CubeArea × Finset Uuid)

/-- `AreaMap::new`. -/
def AreaMap.new (cube_size : Nat) (world_name : String) : AreaMap :=
  { cube_size := cube_size, world_name := world_name, map := [] }

/-- `AreaMap::is_peer_subscribed`: true iff the peer is a member of the set of
the derived cube; an absent cell yields `false`. -/
def AreaMap.is_peer_subscribed (m : AreaMap) (uuid : Uuid) (pos : Vector3) : Bool :=
  let cube := pos.to_cube_area m.cube_size
  match lookupCube m.map cube with
  | none => false
  | some s => decide (uuid ∈ s)

/-- `AreaMap::get_subscribed_peers`: the current membership of the derived
cube; an absent cell yields the empty set (iteration over `empty_set`). -/
def AreaMap.get_subscribed_peers (m : AreaMap) (pos : Vector3) : Finset Uuid :=
  let cube := pos.to_cube_area m.cube_size
  match lookupCube m.map cube with
  | none => ∅
  | some s => s

/-- `AreaMap::add_subscription`: `entry(cube).or_insert_with(Default)` then
`HashSet::insert`, which reports whether the membership is new. -/
def AreaMap.add_subscription (m : AreaMap) (uuid : Uuid) (pos : Vector3) :
    Bool × AreaMap :=
  let cube := pos.to_cube_area m.cube_size
  let s := (lookupCube m.map cube).getD ∅
  (decide (uuid ∉ s), { m with map := setCube m.map cube (insert uuid s) })

/-- `AreaMap::remove_subscription`: early `false` when the cell is absent;
otherwise remove the peer from the cell's set, and drop the cell entry
entirely when the set has become empty. -/
def AreaMap.remove_subscription (m : AreaMap) (uuid : Uuid) (pos : Vector3) :
    Bool × AreaMap :=
  let cube := pos.to_cube_area m.cube_size
  match lookupCube m.map cube with
  | none => (false, m)
  | some s =>
    let removed := decide (uuid ∈ s)
    let s2 := s.erase uuid
    if s2 = ∅ then (removed, { m with map := eraseCube m.map cube })
    else (removed, { m with map := setCube m.map cube s2 })

/-- `AreaMap::remove_peer`: removes the peer from the set of every cell,
reporting whether any removal occurred; cell entries are kept even when
left empty. -/
def AreaMap.remove_peer (m : AreaMap) (uuid : Uuid) : Bool × AreaMap :=
  (m.map.any (fun e => decide (uuid ∈ e.2)),
   { m with map := m.map.map (fun e => (e.1, e.2.erase uuid)) })

/-! ## The database layer (`src/database/client.rs`) -/

/-- The SQLSTATE classes the client distinguishes (`tokio_postgres::error::SqlState`).
`undefinedTable` is PostgreSQL's "relation does not exist" class (42P01);
`duplicateTable` is "relation already exists" (42P07); every other code is
collapsed into `otherCode`. -/
inductive SqlState
  | undefinedTable
  | duplicateTable
  | otherCode
deriving DecidableEq, Repr

/-- A backing-store failure (`tokio_postgres::Error`): either one with no
database-level detail (`as_db_error()` is `None`) or a database error
carrying a SQLSTATE code. -/
inductive PgError
  | nonDbError
  | dbError (code : SqlState)
deriving DecidableEq, Repr

/-- World-name validation failure (`crate::utils::SanitizeError`). -/
inductive SanitizeError
  | invalidName (reason : String)
deriving DecidableEq, Repr

/-- `DatabaseError` from `client.rs`. -/
inductive DatabaseError
  | InvalidWorldName (e : SanitizeError)
  | PostgresError (e : PgError)
deriving DecidableEq, Repr

/-- A world-name validator; `sanitize_world_name` lives in `crate::utils`,
outside the given sources, so the development is parametric in it. -/
abbrev Sanitizer := String → Except SanitizeError String

/-- A record to persist (`crate::structures::Record`). -/
structure Record where
  uuid : Uuid
  world_name : String
  position : Option Vector3
  data : List UInt8
  flex : Option (List UInt8)
deriving DecidableEq, Repr

/-- One persisted row of a shard table: the seven columns pushed per record
by `insert_records` (region id, position, uuid, data blob, flex blob). -/
structure Row where
  region_id : Int
  x : Int
  y : Int
  z : Int
  uuid : Uuid
  data : List UInt8
  flex : Option (List UInt8)
deriving DecidableEq, Repr

/-- Storage-granularity partition key (`super::world_region::WorldRegion`). -/
structure WorldRegion where
  world_name : String
  region_x : Int
  region_y : Int
  region_z : Int
deriving DecidableEq, Repr

/-- Modelled from the spec: `world_region.rs` is outside the given sources;
per the spec a `WorldRegion` is derived deterministically from a position by
floor-dividing each axis by the configured per-axis region extents. -/
def WorldRegion.ofPosition (world_name : String) (pos : Vector3)
    (rx ry rz : Nat) : WorldRegion :=
  { world_name := world_name
    region_x := Int.fdiv pos.x rx
    region_y := Int.fdiv pos.y ry
    region_z := Int.fdiv pos.z rz }

/-- The statements the client issues, abstracting the SQL text built by the
`query_*` builders of the `database` module. -/
inductive Query
  | registryLookup (wr : WorldRegion)
  | insertMany (world_name : String) (table_suffix : Int) (count : Nat)
  | insertOne (world_name : String) (table_suffix : Int)
  | createWorld (world_name : String) (table_suffix : Int)
  | createWorldIndex (world_name : String) (table_suffix : Int)
  | selectRecords (world_name : String) (table_suffix : Int)
deriving DecidableEq, Repr

/-- The backing store plus the client connection: existing shard tables and
indexes keyed by `(world_name, table_suffix)`, persisted rows, the durable
world-region registry, a per-call fault oracle injecting arbitrary
backing-store failures, a call counter, and a log of the statements issued. -/
structure PgState where
  tables : List (String × Int)
  indexes : List (String × Int)
  rows : List (String × Int × Row)
  registry : List (WorldRegion × Int)
  nextRegionId : Int
  faults : Nat → Option PgError
  calls : Nat
  log : List Query

/-- Advances the connection by one issued statement. -/
def PgState.bump (st : PgState) (q : Query) : PgState :=
  { st with calls := st.calls + 1, log := st.log ++ [q] }

/-- Semantics of `client.execute`: a fault injected at this call index fails
the statement; otherwise inserts fail with the "relation does not exist"
database error when the target shard table is absent and append their rows
when it is present. `CREATE` statements are modelled from the spec as
tolerating an already existing relation (the benign concurrent-creation
race must be non-fatal), so absent an injected fault they succeed and are
idempotent. -/
def PgState.execute (st : PgState) (q : Query) (params : List Row) :
    Except PgError Unit × PgState :=
  let st1 := st.bump q
  match st.faults st.calls with
  | some e => (.error e, st1)
  | none =>
    match q with
    | .insertMany w t _ =>
      if (w, t) ∈ st.tables then
        (.ok (), { st1 with rows := st1.rows ++ params.map (fun r => (w, t, r)) })
      else (.error (.dbError .undefinedTable), st1)
    | .insertOne w t =>
      if (w, t) ∈ st.tables then
        (.ok (), { st1 with rows := st1.rows ++ params.map (fun r => (w, t, r)) })
      else (.error (.dbError .undefinedTable), st1)
    | .createWorld w t =>
      (.ok (), { st1 with
        tables := if (w, t) ∈ st.tables then st1.tables else st1.tables ++ [(w, t)] })
    | .createWorldIndex w t =>
      (.ok (), { st1 with
        indexes := if (w, t) ∈ st.indexes then st1.indexes else st1.indexes ++ [(w, t)] })
    | .selectRecords _ _ => (.ok (), st1)
    | .registryLookup _ => (.ok (), st1)

/-- Modelled from the spec: the world-region registry performs a
find-or-create lookup, assigning a fresh durable `RegionId` to a
first-seen `WorldRegion`; the lookup is one backing-store call and can
fail with a storage error. -/
def PgState.registryFindOrCreate (st : PgState) (wr : WorldRegion) :
    Except PgError Int × PgState :=
  let st1 := st.bump (.registryLookup wr)
  match st.faults st.calls with
  | some e => (.error e, st1)
  | none =>
    match st.registry.find? (fun e => decide (e.1 = wr)) with
    | some e => (.ok e.2, st1)
    | none =>
      (.ok st.nextRegionId,
       { st1 with
          registry := st1.registry ++ [(wr, st.nextRegionId)]
          nextRegionId := st.nextRegionId + 1 })

/-- The `lru::LruCache`: entries kept most-recently-used first; `cap = none`
is an unbounded cache. -/
structure LruCache (α β : Type) where
  cap : Option Nat
  entries : List (α × β)

/-- `LruCache::new(n)`. -/
def LruCache.newBounded (α β : Type) (n : Nat) : LruCache α β := ⟨some n, []⟩

/-- `LruCache::unbounded()`. -/
def LruCache.unbounded (α β : Type) : LruCache α β := ⟨none, []⟩

/-- `LruCache::get`: a hit returns the value and moves the entry to the
most-recently-used position. -/
def LruCache.get [DecidableEq α] (c : LruCache α β) (k : α) :
    Option β × LruCache α β :=
  match c.entries.find? (fun e => decide (e.1 = k)) with
  | none => (none, c)
  | some e =>
    (some e.2,
     { c with entries := (e.1, e.2) :: c.entries.eraseP (fun x => decide (x.1 = k)) })

/-- `LruCache::put`: inserts or refreshes the binding at the
most-recently-used position, evicting from the least-recently-used end
whenever a bound is configured and exceeded. -/
def LruCache.put [DecidableEq α] (c : LruCache α β) (k : α) (v : β) :
    LruCache α β :=
  let entries := (k, v) :: c.entries.eraseP (fun x => decide (x.1 = k))
  match c.cap with
  | none => { c with entries := entries }
  | some n => { c with entries := entries.take n }

/-- `DatabaseClient` from `client.rs`. -/
structure DatabaseClient where
  client : PgState
  table_cache : LruCache WorldRegion Int
  region_cache : LruCache WorldRegion Int
  region_x_size : Nat
  region_y_size : Nat
  region_z_size : Nat
  table_size : Nat

/-- `DatabaseClient::new`: a `cache_size` of 0 selects unbounded caches,
any other value bounded caches of that capacity. -/
def DatabaseClient.new (client : PgState) (region_x_size region_y_size region_z_size : Nat)
    (table_size : Nat) (cache_size : Nat) : DatabaseClient :=
  let caches :=
    if cache_size = 0 then
      (LruCache.unbounded WorldRegion Int, LruCache.unbounded WorldRegion Int)
    else
      (LruCache.newBounded WorldRegion Int cache_size,
       LruCache.newBounded WorldRegion Int cache_size)
  { client := client
    table_cache := caches.1
    region_cache := caches.2
    region_x_size := region_x_size
    region_y_size := region_y_size
    region_z_size := region_z_size
    table_size := table_size }

/-- Modelled from the spec: `lookup_ids` (RegionResolver) is outside the
given sources. It derives the `WorldRegion`, probes both recency caches
(a hit in both returns with no I/O and counts as a use in each), and on
any miss performs the registry find-or-create, derives the table suffix by
integer division by `table_size`, and populates both caches. -/
def DatabaseClient.lookup_ids (c : DatabaseClient) (world_name : String)
    (pos : Vector3) : Except DatabaseError (Int × Int) × DatabaseClient :=
  let wr := WorldRegion.ofPosition world_name pos
    c.region_x_size c.region_y_size c.region_z_size
  let tg := c.table_cache.get wr
  let rg := c.region_cache.get wr
  match tg.1, rg.1 with
  | some t, some rid =>
    (.ok (t, rid), { c with table_cache := tg.2, region_cache := rg.2 })
  | _, _ =>
    match c.client.registryFindOrCreate wr with
    | (.error e, pg) => (.error (.PostgresError e), { c with client := pg })
    | (.ok rid, pg) =>
      let t := rid / (c.table_size : Int)
      (.ok (t, rid),
       { c with
          client := pg
          table_cache := c.table_cache.put wr t
          region_cache := c.region_cache.put wr rid })

/-- The batching map of `insert_records`: for each `(world_name, table_suffix)`
key, the accumulated record count and parameter rows. -/
abbrev TableMap := List ((String × Int) × (Nat × List Row))

/-- `table_map.entry(key).or_default()` followed by incrementing the count
and pushing the record's seven parameters. -/
def tableMapAdd : TableMap → (String × Int) → Row → TableMap
  | [], k, r => [(k, (1, [r]))]
  | e :: rest, k, r =>
    if e.1 = k then (k, (e.2.1 + 1, e.2.2 ++ [r])) :: rest
    else e :: tableMapAdd rest k r

/-- The seven columns `insert_records` pushes for one record. -/
def recordRow (region_id : Int) (pos : Vector3) (r : Record) : Row :=
  { region_id := region_id
    x := pos.x
    y := pos.y
    z := pos.z
    uuid := r.uuid
    data := r.data
    flex := r.flex }

/-- Phase 1 of `insert_records` (the `for record in records` loop):
`record.position.unwrap()` (a panic, modelled as `none`, when absent), world
name validation (failure recorded and the record skipped), id resolution
(failure recorded and the record skipped), then accumulation into the
batching map. -/
def insertPhase1 (san : Sanitizer) :
    DatabaseClient → List Record → TableMap → List DatabaseError →
    Option (List DatabaseError × TableMap × DatabaseClient)
  | c, [], m, errs => some (errs, m, c)
  | c, record :: rest, m, errs =>
    match record.position with
    | none => none
    | some position =>
      match san record.world_name with
      | .error e => insertPhase1 san c rest m (errs ++ [.InvalidWorldName e])
      | .ok world_name =>
        match c.lookup_ids world_name position with
        | (.error e, c1) => insertPhase1 san c1 rest m (errs ++ [e])
        | (.ok (table_suffix, region_id), c1) =>
          insertPhase1 san c1 rest
            (tableMapAdd m (world_name, table_suffix) (recordRow region_id position record))
            errs

/-- Phase 2 of `insert_records` for one group: the bulk insert, and on a
"relation does not exist" database error the create-table, create-index,
retry-once remediation; every other failure (and any remediation failure)
is recorded as the group's single error and the group abandoned. -/
def processGroup (st : PgState) (world_name : String) (table_suffix : Int)
    (count : Nat) (rows : List Row) : List DatabaseError × PgState :=
  let q := Query.insertMany world_name table_suffix count
  match st.execute q rows with
  | (.ok _, st1) => ([], st1)
  | (.error e, st1) =>
    match e with
    | .nonDbError => ([.PostgresError e], st1)
    | .dbError code =>
      if code ≠ SqlState.undefinedTable then ([.PostgresError e], st1)
      else
        match st1.execute (.createWorld world_name table_suffix) [] with
        | (.error e2, st2) => ([.PostgresError e2], st2)
        | (.ok _, st2) =>
          match st2.execute (.createWorldIndex world_name table_suffix) [] with
          | (.error e3, st3) => ([.PostgresError e3], st3)
          | (.ok _, st3) =>
            match st3.execute q rows with
            | (.error e4, st4) => ([.PostgresError e4], st4)
            | (.ok _, st4) => ([], st4)

/-- Phase 2 of `insert_records` over all groups. -/
def processGroups : PgState → TableMap → List DatabaseError × PgState
  | st, [] => ([], st)
  | st, e :: rest =>
    let p := processGroup st e.1.1 e.1.2 e.2.1 e.2.2
    let q := processGroups p.2 rest
    (p.1 ++ q.1, q.2)

/-- `DatabaseClient::insert_records`: phase 1 batches, phase 2 executes each
group; `none` models the panic of `record.position.unwrap()`. -/
def DatabaseClient.insert_records (c : DatabaseClient) (san : Sanitizer)
    (records : List Record) : Option (List DatabaseError × DatabaseClient) :=
  match insertPhase1 san c records [] [] with
  | none => none
  | some (errs, m, c1) =>
    let p := processGroups c1.client m
    some (errs ++ p.1, { c1 with client := p.2 })

/-- `DatabaseClient::insert_record`: the deprecated single-record variant,
with the same unwrap, validation, resolution and create-on-miss-then-retry
sequence, reported through `Result` instead of an error list. -/
def DatabaseClient.insert_record (c : DatabaseClient) (san : Sanitizer)
    (record : Record) : Option (Except DatabaseError Unit × DatabaseClient) :=
  match record.position with
  | none => none
  | some position =>
    match san record.world_name with
    | .error e => some (.error (.InvalidWorldName e), c)
    | .ok world_name =>
      match c.lookup_ids world_name position with
      | (.error e, c1) => some (.error e, c1)
      | (.ok (table_suffix, region_id), c1) =>
        let row := recordRow region_id position record
        let q := Query.insertOne world_name table_suffix
        match c1.client.execute q [row] with
        | (.ok _, st1) => some (.ok (), { c1 with client := st1 })
        | (.error e, st1) =>
          match e with
          | .nonDbError => some (.error (.PostgresError e), { c1 with client := st1 })
          | .dbError code =>
            if code ≠ SqlState.undefinedTable then
              some (.error (.PostgresError e), { c1 with client := st1 })
            else
              match st1.execute (.createWorld world_name table_suffix) [] with
              | (.error e2, st2) =>
                some (.error (.PostgresError e2), { c1 with client := st2 })
              | (.ok _, st2) =>
                match st2.execute (.createWorldIndex world_name table_suffix) [] with
                | (.error e3, st3) =>
                  some (.error (.PostgresError e3), { c1 with client := st3 })
                | (.ok _, st3) =>
                  match st3.execute q [row] with
                  | (.error e4, st4) =>
                    some (.error (.PostgresError e4), { c1 with client := st4 })
                  | (.ok _, st4) => some (.ok (), { c1 with client := st4 })

/-- Semantics of `client.query` for the select statement: modelled from the
spec, the read returns every row of the shard table whose region id matches,
failing with the "relation does not exist" database error when the physical
table is absent (and with any injected fault). -/
def PgState.querySelect (st : PgState) (world_name : String) (table_suffix : Int)
    (region_id : Int) : Except PgError (List Row) × PgState :=
  let st1 := st.bump (.selectRecords world_name table_suffix)
  match st.faults st.calls with
  | some e => (.error e, st1)
  | none =>
    if (world_name, table_suffix) ∈ st.tables then
      (.ok ((st.rows.filter (fun e =>
          decide (e.1 = world_name ∧ e.2.1 = table_suffix ∧ e.2.2.region_id = region_id))).map
          (fun e => e.2.2)),
       st1)
    else (.error (.dbError .undefinedTable), st1)

/-- Modelled from the spec: `Record::from_postgres_row` deserializes one row
into a `Record` tagged with the queried world name. -/
def Record.from_postgres_row (row : Row) (world_name : String) : Record :=
  { uuid := row.uuid
    world_name := world_name
    position := some { x := row.x, y := row.y, z := row.z }
    data := row.data
    flex := row.flex }

/-- `DatabaseClient::get_records_in_region`: resolve, one read, deserialize;
any failure aborts the whole call. -/
def DatabaseClient.get_records_in_region (c : DatabaseClient)
    (world_name : String) (point_inside_region : Vector3) :
    Except DatabaseError (List Record) × DatabaseClient :=
  match c.lookup_ids world_name point_inside_region with
  | (.error e, c1) => (.error e, c1)
  | (.ok (table_suffix, region_id), c1) =>
    match c1.client.querySelect world_name table_suffix region_id with
    | (.error e, st1) => (.error (.PostgresError e), { c1 with client := st1 })
    | (.ok rows, st1) =>
      (.ok (rows.map (fun row => Record.from_postgres_row row world_name)),
       { c1 with client := st1 })

/-- Total number of parameter rows accumulated in a batching map. -/
def totalRows (m : TableMap) : Nat :=
  (m.map (fun e => e.2.2.length)).sum

/-- The semantically relevant fields of a connection state: everything except
the statement log (`faults` is never modified by any operation). -/
def PgState.core (st : PgState) :
    List (String × Int) × List (String × Int) × List (String × Int × Row) ×
    List (WorldRegion × Int) × Int × Nat :=
  (st.tables, st.indexes, st.rows, st.registry, st.nextRegionId, st.calls)

/-- The semantically relevant fields of a client: the connection core, both
caches and the configuration. -/
def DatabaseClient.core (c : DatabaseClient) :
    (List (String × Int) × List (String × Int) × List (String × Int × Row) ×
     List (WorldRegion × Int) × Int × Nat) ×
    List (WorldRegion × Int) × List (WorldRegion × Int) × Nat × Nat × Nat × Nat :=
  (c.client.core, c.table_cache.entries, c.region_cache.entries,
   c.region_x_size, c.region_y_size, c.region_z_size, c.table_size)

/-- The keys currently held by a cache. -/
def LruCache.keys (c : LruCache α β) : List α :=
  c.entries.map Prod.fst

/-- Runs a sequence of resolver lookups, the only operations that touch the
recency caches. -/
def runLookups : DatabaseClient → List (String × Vector3) → DatabaseClient
  | c, [] => c
  | c, op :: rest => runLookups (c.lookup_ids op.1 op.2).2 rest

/-- A quiescent backing store: no shard tables, no rows, an empty registry
and no injected faults. -/
def emptyPg : PgState :=
  { tables := []
    indexes := []
    rows := []
    registry := []
    nextRegionId := 1
    faults := fun _ => none
    calls := 0
    log := [] }

/-- A concrete client over the quiescent store: 16-sized region extents,
100 regions per physical table, caches of capacity 8. -/
def sampleClient : DatabaseClient := DatabaseClient.new emptyPg 16 16 16 100 8

/-- A concrete validator standing in for the out-of-scope
`sanitize_world_name` in witnesses: rejects exactly the empty name. -/
def sampleSanitizer : Sanitizer := fun s =>
  if s = "" then .error (.invalidName "empty world name") else .ok s

/-- A concrete record carrying a position. -/
def sampleRecord : Record :=
  { uuid := 7
    world_name := "overworld"
    position := some ⟨1, 2, 3⟩
    data := [1, 2]
    flex := none }

/-- A concrete record without a position. -/
def sampleRecordNoPos : Record :=
  { uuid := 8
    world_name := "overworld"
    position := none
    data := []
    flex := none }

/-- A concrete parameter row. -/
def sampleRow : Row :=
  { region_id := 1, x := 1, y := 2, z := 3, uuid := 7, data := [1, 2], flex := none }

/-- A store in which the shard table already exists but the next call is
reported as "relation does not exist": the benign race in which another
connection created the table concurrently. -/
def racePg : PgState :=
  { tables := [("overworld", 0)]
    indexes := []
    rows := []
    registry := []
    nextRegionId := 1
    faults := fun n => if n = 0 then some (.dbError .undefinedTable) else none
    calls := 0
    log := [] }

/-- Both resolver caches are bounded by `n` and within the bound. -/
def CacheOk (n : Nat) (c : DatabaseClient) : Prop :=
  c.table_cache.cap = some n ∧ c.region_cache.cap = some n ∧
  c.table_cache.entries.length ≤ n ∧ c.region_cache.entries.length ≤ n

/-- Both resolver caches are unbounded. -/
def CacheUnbounded (c : DatabaseClient) : Prop :=
  c.table_cache.cap = none ∧ c.region_cache.cap = none

/-! ## Association-list lemmas for the subscription index -/

theorem lookupCube_setCube_self (m : List (CubeArea × Finset Uuid)) (k : CubeArea)
    (v : Finset Uuid) : lookupCube (setCube m k v) k = some v := by
  induction m with
  | nil => simp [setCube, lookupCube]
  | cons e rest ih =>
    by_cases h : e.1 = k
    · simp [setCube, h, lookupCube]
    · simp [setCube, h, lookupCube, ih]

theorem lookupCube_setCube_ne (m : List (CubeArea × Finset Uuid)) (k k2 : CubeArea)
    (v : Finset Uuid) (h : k2 ≠ k) :
    lookupCube (setCube m k v) k2 = lookupCube m k2 := by
  have hk : ¬(k = k2) := fun hh => h hh.symm
  induction m with
  | nil => simp [setCube, lookupCube, hk]
  | cons e rest ih =>
    by_cases he : e.1 = k
    · simp [setCube, lookupCube, he, hk]
    · simp [setCube, lookupCube, he, ih]

theorem lookupCube_eq_none (m : List (CubeArea × Finset Uuid)) (k : CubeArea)
    (h : k ∉ m.map Prod.fst) : lookupCube m k = none := by
  induction m with
  | nil => rfl
  | cons e rest ih =>
    simp only [List.map_cons, List.mem_cons] at h
    push_neg at h
    have he : ¬(e.1 = k) := fun hh => h.1 hh.symm
    simp [lookupCube, he, ih h.2]

theorem lookupCube_eraseCube_self (m : List (CubeArea × Finset Uuid)) (k : CubeArea)
    (hnd : (m.map Prod.fst).Nodup) : lookupCube (eraseCube m k) k = none := by
  induction m with
  | nil => rfl
  | cons e rest ih =>
    simp only [List.map_cons, List.nodup_cons] at hnd
    by_cases h : e.1 = k
    · subst h
      simpa [eraseCube] using lookupCube_eq_none rest e.1 hnd.1
    · simp [eraseCube, h, lookupCube, ih hnd.2]

theorem lookupCube_map_erase (m : List (CubeArea × Finset Uuid)) (k : CubeArea)
    (u : Uuid) :
    lookupCube (m.map (fun e => (e.1, e.2.erase u))) k =
      (lookupCube m k).map (fun s => s.erase u) := by
  induction m with
  | nil => rfl
  | cons e rest ih =>
    by_cases h : e.1 = k
    · simp [lookupCube, h]
    · simp [lookupCube, h, ih]

theorem keys_map_erase (l : List (CubeArea × Finset Uuid)) (u : Uuid) :
    (l.map (fun e => (e.1, e.2.erase u))).map Prod.fst = l.map Prod.fst := by
  induction l with
  | nil => rfl
  | cons e rest ih => simp [ih]

/-! ## Claims about the subscription index -/

/-- C8: `add_subscription` derives the cube from the position and the index's
cube size, lazily creates the cell's set, inserts the peer, and returns
`true` iff the peer was not already a member; afterwards `is_peer_subscribed`
is true at every position in the same cube and still false at positions in a
different cube the peer never joined. -/
theorem add_subscription_membership (m : AreaMap) (u : Uuid) (p : Vector3) :
    ((m.add_subscription u p).1 = true ↔
      u ∉ (lookupCube m.map (p.to_cube_area m.cube_size)).getD ∅) ∧
    (∀ p2 : Vector3, p2.to_cube_area m.cube_size = p.to_cube_area m.cube_size →
      (m.add_subscription u p).2.is_peer_subscribed u p2 = true) ∧
    (∀ p3 : Vector3, p3.to_cube_area m.cube_size ≠ p.to_cube_area m.cube_size →
      m.is_peer_subscribed u p3 = false →
      (m.add_subscription u p).2.is_peer_subscribed u p3 = false) := by
  refine ⟨by simp [AreaMap.add_subscription], ?_, ?_⟩
  · intro p2 h
    simp [AreaMap.add_subscription, AreaMap.is_peer_subscribed, h,
      lookupCube_setCube_self]
  · intro p3 h hfalse
    simpa [AreaMap.add_subscription, AreaMap.is_peer_subscribed,
      lookupCube_setCube_ne _ _ _ _ h] using hfalse

/-- Witness for C8 on a concrete index: a fresh subscription in a
16-sized grid is new, visible from another position of the same cube, and
invisible from a position of a different cube. -/
theorem add_subscription_membership_witness :
    (((AreaMap.new 16 "overworld").add_subscription 7 ⟨1, 2, 3⟩).1 = true) ∧
    (((AreaMap.new 16 "overworld").add_subscription 7 ⟨1, 2, 3⟩).2.is_peer_subscribed
        7 ⟨4, 5, 6⟩ = true) ∧
    (((AreaMap.new 16 "overworld").add_subscription 7 ⟨1, 2, 3⟩).2.is_peer_subscribed
        7 ⟨17, 2, 3⟩ = false) := by
  have h := add_subscription_membership (AreaMap.new 16 "overworld") 7 ⟨1, 2, 3⟩
  exact ⟨h.1.mpr (by decide), h.2.1 ⟨4, 5, 6⟩ (by decide),
    h.2.2 ⟨17, 2, 3⟩ (by decide) (by decide)⟩

/-- C6: `remove_subscription` returns whether a removal occurred, leaves the
peer unsubscribed at the position, and whenever the removal empties the
cell's set the cell entry itself is deleted, so a subsequent lookup finds no
cell and `get_subscribed_peers` yields the empty set. -/
theorem remove_subscription_compacts_empty_cell (m : AreaMap) (u : Uuid)
    (p : Vector3) (hnd : (m.map.map Prod.fst).Nodup) :
    ((m.remove_subscription u p).1 = true ↔
      ∃ s, lookupCube m.map (p.to_cube_area m.cube_size) = some s ∧ u ∈ s) ∧
    ((m.remove_subscription u p).2.is_peer_subscribed u p = false) ∧
    (∀ s, lookupCube m.map (p.to_cube_area m.cube_size) = some s → s.erase u = ∅ →
      lookupCube (m.remove_subscription u p).2.map (p.to_cube_area m.cube_size) = none ∧
      (m.remove_subscription u p).2.get_subscribed_peers p = ∅) := by
  refine ⟨?_, ?_, ?_⟩
  · cases hl : lookupCube m.map (p.to_cube_area m.cube_size) with
    | none => simp [AreaMap.remove_subscription, hl]
    | some s =>
      by_cases he : s.erase u = ∅ <;>
        simp [AreaMap.remove_subscription, hl, he]
  · cases hl : lookupCube m.map (p.to_cube_area m.cube_size) with
    | none => simp [AreaMap.remove_subscription, AreaMap.is_peer_subscribed, hl]
    | some s =>
      by_cases he : s.erase u = ∅
      · have hr : m.remove_subscription u p =
            (decide (u ∈ s), { m with map := eraseCube m.map (p.to_cube_area m.cube_size) }) := by
          simp [AreaMap.remove_subscription, hl, he]
        rw [hr]
        simp [AreaMap.is_peer_subscribed,
          lookupCube_eraseCube_self m.map (p.to_cube_area m.cube_size) hnd]
      · have hr : m.remove_subscription u p =
            (decide (u ∈ s),
             { m with map := setCube m.map (p.to_cube_area m.cube_size) (s.erase u) }) := by
          simp [AreaMap.remove_subscription, hl, he]
        rw [hr]
        simp [AreaMap.is_peer_subscribed, lookupCube_setCube_self]
  · intro s hs he
    have hr : m.remove_subscription u p =
        (decide (u ∈ s), { m with map := eraseCube m.map (p.to_cube_area m.cube_size) }) := by
      simp [AreaMap.remove_subscription, hs, he]
    rw [hr]
    have h1 := lookupCube_eraseCube_self m.map (p.to_cube_area m.cube_size) hnd
    exact ⟨h1, by simp [AreaMap.get_subscribed_peers, h1]⟩

/-- Witness for C6 on a concrete index: removing the only subscriber of a
cell reports a removal, deletes the cell entry, and leaves
`get_subscribed_peers` empty. -/
theorem remove_subscription_compacts_empty_cell_witness :
    ((((AreaMap.new 16 "overworld").add_subscription 7 ⟨1, 2, 3⟩).2.remove_subscription
        7 ⟨1, 2, 3⟩).1 = true) ∧
    (lookupCube (((AreaMap.new 16 "overworld").add_subscription 7
        ⟨1, 2, 3⟩).2.remove_subscription 7 ⟨1, 2, 3⟩).2.map
        (Vector3.to_cube_area ⟨1, 2, 3⟩ 16) = none) ∧
    ((((AreaMap.new 16 "overworld").add_subscription 7 ⟨1, 2, 3⟩).2.remove_subscription
        7 ⟨1, 2, 3⟩).2.get_subscribed_peers ⟨1, 2, 3⟩ = ∅) := by
  have h := remove_subscription_compacts_empty_cell
    ((AreaMap.new 16 "overworld").add_subscription 7 ⟨1, 2, 3⟩).2 7 ⟨1, 2, 3⟩
    (by decide)
  have h3 := h.2.2 (insert 7 ∅) (by decide) (by decide)
  exact ⟨h.1.mpr ⟨insert 7 ∅, by decide, by decide⟩, h3.1, h3.2⟩

/-- C7: `remove_peer` removes the peer from every cell of the world's map,
returns `true` iff at least one removal occurred, leaves the peer
unsubscribed at every position, and does not delete the cells left empty. -/
theorem remove_peer_clears_all_cells (m : AreaMap) (u : Uuid) :
    ((m.remove_peer u).1 = true ↔ ∃ e ∈ m.map, u ∈ e.2) ∧
    (∀ p : Vector3, (m.remove_peer u).2.is_peer_subscribed u p = false) ∧
    ((m.remove_peer u).2.map.map Prod.fst = m.map.map Prod.fst) := by
  refine ⟨by simp [AreaMap.remove_peer, List.any_eq_true], ?_,
    keys_map_erase m.map u⟩
  intro p
  simp only [AreaMap.remove_peer, AreaMap.is_peer_subscribed]
  rw [lookupCube_map_erase]
  cases lookupCube m.map (p.to_cube_area m.cube_size) with
  | none => rfl
  | some s => simp

/-- Witness for C7 on a concrete index: after a peer subscribed in two cells,
`remove_peer` reports a removal, the peer is unsubscribed everywhere (checked
at the original position), and the two cell entries survive. -/
theorem remove_peer_clears_all_cells_witness :
    (((((AreaMap.new 16 "overworld").add_subscription 7 ⟨1, 2, 3⟩).2.add_subscription
        7 ⟨17, 2, 3⟩).2.remove_peer 7).1 = true) ∧
    (((((AreaMap.new 16 "overworld").add_subscription 7 ⟨1, 2, 3⟩).2.add_subscription
        7 ⟨17, 2, 3⟩).2.remove_peer 7).2.is_peer_subscribed 7 ⟨1, 2, 3⟩ = false) ∧
    (((((AreaMap.new 16 "overworld").add_subscription 7 ⟨1, 2, 3⟩).2.add_subscription
        7 ⟨17, 2, 3⟩).2.remove_peer 7).2.map.map Prod.fst =
      ((((AreaMap.new 16 "overworld").add_subscription 7 ⟨1, 2, 3⟩).2.add_subscription
        7 ⟨17, 2, 3⟩).2.map.map Prod.fst)) := by
  have h := remove_peer_clears_all_cells
    (((AreaMap.new 16 "overworld").add_subscription 7 ⟨1, 2, 3⟩).2.add_subscription
      7 ⟨17, 2, 3⟩).2 7
  exact ⟨h.1.mpr ⟨(⟨0, 0, 0⟩, insert 7 ∅), by decide, by decide⟩,
    h.2.1 ⟨1, 2, 3⟩, h.2.2⟩

/-! ## Cache lemmas -/

theorem LruCache.get_cap [DecidableEq α] (c : LruCache α β) (k : α) :
    (c.get k).2.cap = c.cap := by
  unfold LruCache.get
  cases c.entries.find? (fun e => decide (e.1 = k)) <;> rfl

theorem LruCache.put_cap [DecidableEq α] (c : LruCache α β) (k : α) (v : β) :
    (c.put k v).cap = c.cap := by
  unfold LruCache.put
  cases c.cap <;> rfl

theorem LruCache.get_length [DecidableEq α] (c : LruCache α β) (k : α) :
    (c.get k).2.entries.length = c.entries.length := by
  unfold LruCache.get
  cases hf : c.entries.find? (fun e => decide (e.1 = k)) with
  | none => rfl
  | some e =>
    have hlen := List.length_eraseP_add_one (List.mem_of_find?_eq_some hf)
      (List.find?_some hf)
    simpa using hlen

theorem LruCache.put_length_le [DecidableEq α] (c : LruCache α β) (k : α) (v : β)
    (n : Nat) (hcap : c.cap = some n) : (c.put k v).entries.length ≤ n := by
  unfold LruCache.put
  rw [hcap]
  simp

theorem LruCache.get_keys_mono [DecidableEq α] (c : LruCache α β) (k k0 : α)
    (h : k0 ∈ c.keys) : k0 ∈ (c.get k).2.keys := by
  cases hf : c.entries.find? (fun e => decide (e.1 = k)) with
  | none => simpa [LruCache.get, LruCache.keys, hf] using h
  | some e =>
    have hek : e.1 = k := by simpa using List.find?_some hf
    rcases List.mem_map.1 h with ⟨e0, he0, hk0⟩
    by_cases hkk : k0 = k
    · simp [LruCache.get, LruCache.keys, hf, hek, hkk]
    · have hsurv : e0 ∈ c.entries.eraseP (fun x => decide (x.1 = k)) :=
        (List.mem_eraseP_of_neg (by simp [hk0, hkk])).2 he0
      simp only [LruCache.get, LruCache.keys, hf, List.map_cons, List.mem_cons]
      exact Or.inr (List.mem_map.2 ⟨e0, hsurv, hk0⟩)

theorem LruCache.put_keys_unbounded [DecidableEq α] (c : LruCache α β) (k k0 : α)
    (v : β) (hcap : c.cap = none) (h : k0 ∈ c.keys) : k0 ∈ (c.put k v).keys := by
  by_cases hkk : k0 = k
  · subst hkk
    simp [LruCache.put, LruCache.keys, hcap]
  · rcases List.mem_map.1 h with ⟨e0, he0, hk0⟩
    have hsurv : e0 ∈ c.entries.eraseP (fun x => decide (x.1 = k)) :=
      (List.mem_eraseP_of_neg (by simp [hk0, hkk])).2 he0
    simp only [LruCache.put, LruCache.keys, hcap, List.map_cons, List.mem_cons]
    exact Or.inr (List.mem_map.2 ⟨e0, hsurv, hk0⟩)

/-- The resolver touches the caches in exactly one of three ways: a recency
touch on both (double hit), no change (registry failure), or a `put` of the
derived region into both (miss then populate). -/
theorem lookup_ids_caches (c : DatabaseClient) (w : String) (pos : Vector3) :
    ∃ wr : WorldRegion,
      (((c.lookup_ids w pos).2.table_cache = (c.table_cache.get wr).2 ∧
        (c.lookup_ids w pos).2.region_cache = (c.region_cache.get wr).2) ∨
       ((c.lookup_ids w pos).2.table_cache = c.table_cache ∧
        (c.lookup_ids w pos).2.region_cache = c.region_cache) ∨
       (∃ t rid, (c.lookup_ids w pos).2.table_cache = c.table_cache.put wr t ∧
         (c.lookup_ids w pos).2.region_cache = c.region_cache.put wr rid)) := by
  refine ⟨WorldRegion.ofPosition w pos c.region_x_size c.region_y_size c.region_z_size, ?_⟩
  unfold DatabaseClient.lookup_ids
  cases htg : (c.table_cache.get
      (WorldRegion.ofPosition w pos c.region_x_size c.region_y_size c.region_z_size)).1 with
  | some t =>
    cases hrg : (c.region_cache.get
        (WorldRegion.ofPosition w pos c.region_x_size c.region_y_size c.region_z_size)).1 with
    | some rid => exact Or.inl (by simp [htg, hrg])
    | none =>
      rcases hreg : c.client.registryFindOrCreate
          (WorldRegion.ofPosition w pos c.region_x_size c.region_y_size c.region_z_size) with
        ⟨res, pg⟩
      cases res with
      | error e => exact Or.inr (Or.inl (by simp [htg, hrg, hreg]))
      | ok rid => exact Or.inr (Or.inr ⟨rid / (c.table_size : Int), rid, by simp [htg, hrg, hreg]⟩)
  | none =>
    rcases hreg : c.client.registryFindOrCreate
        (WorldRegion.ofPosition w pos c.region_x_size c.region_y_size c.region_z_size) with
      ⟨res, pg⟩
    cases res with
    | error e => exact Or.inr (Or.inl (by simp [htg, hreg]))
    | ok rid => exact Or.inr (Or.inr ⟨rid / (c.table_size : Int), rid, by simp [htg, hreg]⟩)

theorem lookup_ids_cacheOk (n : Nat) (c : DatabaseClient) (w : String) (pos : Vector3)
    (h : CacheOk n c) : CacheOk n (c.lookup_ids w pos).2 := by
  obtain ⟨hct, hcr, hlt, hlr⟩ := h
  rcases lookup_ids_caches c w pos with ⟨wr, ⟨h1, h2⟩ | ⟨h1, h2⟩ | ⟨t, rid, h1, h2⟩⟩
  · exact ⟨by rw [h1, LruCache.get_cap, hct], by rw [h2, LruCache.get_cap, hcr],
      by rw [h1, LruCache.get_length]; exact hlt,
      by rw [h2, LruCache.get_length]; exact hlr⟩
  · exact ⟨by rw [h1, hct], by rw [h2, hcr], by rw [h1]; exact hlt, by rw [h2]; exact hlr⟩
  · exact ⟨by rw [h1, LruCache.put_cap, hct], by rw [h2, LruCache.put_cap, hcr],
      by rw [h1]; exact LruCache.put_length_le _ _ _ _ hct,
      by rw [h2]; exact LruCache.put_length_le _ _ _ _ hcr⟩

theorem runLookups_cacheOk (n : Nat) (ops : List (String × Vector3))
    (c : DatabaseClient) (h : CacheOk n c) : CacheOk n (runLookups c ops) := by
  induction ops generalizing c with
  | nil => exact h
  | cons op rest ih => exact ih _ (lookup_ids_cacheOk n c op.1 op.2 h)

theorem lookup_ids_unbounded (c : DatabaseClient) (w : String) (pos : Vector3)
    (h : CacheUnbounded c) : CacheUnbounded (c.lookup_ids w pos).2 ∧
    (∀ k, k ∈ c.table_cache.keys → k ∈ (c.lookup_ids w pos).2.table_cache.keys) ∧
    (∀ k, k ∈ c.region_cache.keys → k ∈ (c.lookup_ids w pos).2.region_cache.keys) := by
  obtain ⟨hct, hcr⟩ := h
  rcases lookup_ids_caches c w pos with ⟨wr, ⟨h1, h2⟩ | ⟨h1, h2⟩ | ⟨t, rid, h1, h2⟩⟩
  · exact ⟨⟨by rw [h1, LruCache.get_cap, hct], by rw [h2, LruCache.get_cap, hcr]⟩,
      fun k hk => by rw [h1]; exact LruCache.get_keys_mono _ _ _ hk,
      fun k hk => by rw [h2]; exact LruCache.get_keys_mono _ _ _ hk⟩
  · exact ⟨⟨by rw [h1, hct], by rw [h2, hcr]⟩,
      fun k hk => by rw [h1]; exact hk, fun k hk => by rw [h2]; exact hk⟩
  · exact ⟨⟨by rw [h1, LruCache.put_cap, hct], by rw [h2, LruCache.put_cap, hcr]⟩,
      fun k hk => by rw [h1]; exact LruCache.put_keys_unbounded _ _ _ _ hct hk,
      fun k hk => by rw [h2]; exact LruCache.put_keys_unbounded _ _ _ _ hcr hk⟩

theorem runLookups_unbounded (ops : List (String × Vector3)) (c : DatabaseClient)
    (h : CacheUnbounded c) : CacheUnbounded (runLookups c ops) ∧
    (∀ k, k ∈ c.table_cache.keys → k ∈ (runLookups c ops).table_cache.keys) ∧
    (∀ k, k ∈ c.region_cache.keys → k ∈ (runLookups c ops).region_cache.keys) := by
  induction ops generalizing c with
  | nil => exact ⟨h, fun _ hk => hk, fun _ hk => hk⟩
  | cons op rest ih =>
    obtain ⟨hu, hmt, hmr⟩ := lookup_ids_unbounded c op.1 op.2 h
    obtain ⟨hu2, hmt2, hmr2⟩ := ih _ hu
    exact ⟨hu2, fun k hk => hmt2 k (hmt k hk), fun k hk => hmr2 k (hmr k hk)⟩

/-! ## Claims about the resolver caches -/

/-- C9: throughout any sequence of resolver lookups, a client built with a
non-zero `cache_size` keeps each recency cache at no more than `cache_size`
entries, while a `cache_size` of 0 selects unbounded caches from which no
mapping is ever evicted. -/
theorem resolver_caches_bounded (pg : PgState) (rx ry rz ts n : Nat)
    (ops : List (String × Vector3)) :
    (n ≠ 0 →
      (runLookups (DatabaseClient.new pg rx ry rz ts n) ops).table_cache.entries.length ≤ n ∧
      (runLookups (DatabaseClient.new pg rx ry rz ts n) ops).region_cache.entries.length ≤ n) ∧
    (n = 0 →
      (runLookups (DatabaseClient.new pg rx ry rz ts n) ops).table_cache.cap = none ∧
      (runLookups (DatabaseClient.new pg rx ry rz ts n) ops).region_cache.cap = none) ∧
    (∀ c : DatabaseClient, CacheUnbounded c → ∀ k : WorldRegion,
      (k ∈ c.table_cache.keys → k ∈ (runLookups c ops).table_cache.keys) ∧
      (k ∈ c.region_cache.keys → k ∈ (runLookups c ops).region_cache.keys)) := by
  refine ⟨?_, ?_, ?_⟩
  · intro hn
    have h0 : CacheOk n (DatabaseClient.new pg rx ry rz ts n) := by
      refine ⟨?_, ?_, ?_, ?_⟩ <;>
        simp [DatabaseClient.new, hn, LruCache.newBounded]
    obtain ⟨_, _, h3, h4⟩ := runLookups_cacheOk n ops _ h0
    exact ⟨h3, h4⟩
  · intro hn
    have h0 : CacheUnbounded (DatabaseClient.new pg rx ry rz ts n) := by
      constructor <;> simp [DatabaseClient.new, hn, LruCache.unbounded]
    exact (runLookups_unbounded ops _ h0).1
  · intro c hc k
    obtain ⟨_, hmt, hmr⟩ := runLookups_unbounded ops c hc
    exact ⟨hmt k, hmr k⟩

/-- Witness for C9: one lookup on the sample client (capacity 8) leaves both
caches within the bound. -/
theorem resolver_caches_bounded_witness :
    (runLookups sampleClient [("overworld", ⟨1, 2, 3⟩)]).table_cache.entries.length ≤ 8 ∧
    (runLookups sampleClient [("overworld", ⟨1, 2, 3⟩)]).region_cache.entries.length ≤ 8 := by
  have h := resolver_caches_bounded emptyPg 16 16 16 100 8 [("overworld", ⟨1, 2, 3⟩)]
  exact h.1 (by decide)

/-! ## Totality of the insert paths under present positions -/

theorem insertPhase1_isSome (san : Sanitizer) (records : List Record)
    (h : ∀ r ∈ records, r.position.isSome) (c : DatabaseClient) (m : TableMap)
    (errs : List DatabaseError) : (insertPhase1 san c records m errs).isSome := by
  induction records generalizing c m errs with
  | nil => simp [insertPhase1]
  | cons r rest ih =>
    have hr := h r (by simp)
    have hrest : ∀ x ∈ rest, x.position.isSome := fun x hx => h x (by simp [hx])
    cases hp : r.position with
    | none => rw [hp] at hr; simp at hr
    | some pos =>
      cases hs : san r.world_name with
      | error e =>
        simpa [insertPhase1, hp, hs] using ih hrest _ _ _
      | ok w =>
        rcases hlk : c.lookup_ids w pos with ⟨res, c1⟩
        cases res with
        | error e =>
          simpa [insertPhase1, hp, hs, hlk] using ih hrest _ _ _
        | ok tr =>
          simpa [insertPhase1, hp, hs, hlk] using ih hrest _ _ _

theorem insert_record_isSome (c : DatabaseClient) (san : Sanitizer) (record : Record)
    (h : record.position.isSome) : (c.insert_record san record).isSome := by
  cases hp : record.position with
  | none => rw [hp] at h; simp at h
  | some pos =>
    simp only [DatabaseClient.insert_record, hp]
    repeat' split
    all_goals simp

/-! ## Claim about the unconditional position unwrap -/

/-- C5: both insert paths unwrap the optional position before any
validation: with every position present the unwrap is unreachable and the
call is total, while a batch containing a position-less record makes
`insert_records` panic (modelled as `none`) rather than report that record
in the failure list, and likewise for `insert_record`. -/
theorem insert_position_unwrap_semantics :
    (∀ (c : DatabaseClient) (san : Sanitizer) (records : List Record),
      (∀ r ∈ records, r.position.isSome) → (c.insert_records san records).isSome) ∧
    (∀ (c : DatabaseClient) (san : Sanitizer) (record : Record),
      record.position.isSome → (c.insert_record san record).isSome) ∧
    (∃ (c : DatabaseClient) (san : Sanitizer) (records : List Record),
      (∃ r ∈ records, r.position = none) ∧ c.insert_records san records = none) ∧
    (∃ (c : DatabaseClient) (san : Sanitizer) (record : Record),
      record.position = none ∧ c.insert_record san record = none) := by
  refine ⟨?_, insert_record_isSome, ?_, ?_⟩
  · intro c san records h
    unfold DatabaseClient.insert_records
    rcases ho : insertPhase1 san c records [] [] with _ | ⟨errs, m, c1⟩
    · have := insertPhase1_isSome san records h c [] []
      rw [ho] at this
      simp at this
    · simp
  · exact ⟨sampleClient, sampleSanitizer, [sampleRecord, sampleRecordNoPos],
      ⟨sampleRecordNoPos, by simp, rfl⟩, rfl⟩
  · exact ⟨sampleClient, sampleSanitizer, sampleRecordNoPos, rfl, rfl⟩

/-- Witness for C5: the totality halves applied to the concrete sample
client, sanitizer and record. -/
theorem insert_position_unwrap_semantics_witness :
    (sampleClient.insert_records sampleSanitizer [sampleRecord]).isSome ∧
    (sampleClient.insert_record sampleSanitizer sampleRecord).isSome := by
  have h := insert_position_unwrap_semantics
  exact ⟨h.1 sampleClient sampleSanitizer [sampleRecord] (by decide),
    h.2.1 sampleClient sampleSanitizer sampleRecord (by decide)⟩

/-! ## Lemmas about statement execution -/

theorem execute_log (st : PgState) (q : Query) (params : List Row) :
    (st.execute q params).2.log = st.log ++ [q] := by
  unfold PgState.execute
  cases st.faults st.calls with
  | some e => rfl
  | none => cases q <;> first | rfl | (dsimp only; split <;> rfl)

/-! ## Claims about the per-group remediation protocol -/

/-- C2: when the bulk insert of a group fails with anything but the
"relation does not exist" class, exactly that one failure covering the whole
group is recorded and the group is abandoned with no remediation statement
issued; when it fails with that class, the engine issues create-table, then
create-index, then retries the original insert exactly once, and a failure
of any of those three steps is recorded as the group's single error (the
failing step's own error) with nothing issued afterwards, while a
successful retry records no failure. -/
theorem insert_group_remediation_protocol (st : PgState) (w : String) (t : Int)
    (count : Nat) (rows : List Row) :
    (∀ (e : PgError) (st1 : PgState),
      st.execute (.insertMany w t count) rows = (.error e, st1) →
      e ≠ .dbError .undefinedTable →
      processGroup st w t count rows = ([.PostgresError e], st1) ∧
      st1.log = st.log ++ [.insertMany w t count]) ∧
    (∀ st1 : PgState,
      st.execute (.insertMany w t count) rows = (.error (.dbError .undefinedTable), st1) →
      (∀ (e2 : PgError) (st2 : PgState),
        st1.execute (.createWorld w t) [] = (.error e2, st2) →
        processGroup st w t count rows = ([.PostgresError e2], st2) ∧
        st2.log = st.log ++ [.insertMany w t count, .createWorld w t]) ∧
      (∀ st2 : PgState, st1.execute (.createWorld w t) [] = (.ok (), st2) →
        (∀ (e3 : PgError) (st3 : PgState),
          st2.execute (.createWorldIndex w t) [] = (.error e3, st3) →
          processGroup st w t count rows = ([.PostgresError e3], st3) ∧
          st3.log = st.log ++ [.insertMany w t count, .createWorld w t,
            .createWorldIndex w t]) ∧
        (∀ st3 : PgState, st2.execute (.createWorldIndex w t) [] = (.ok (), st3) →
          (∀ (e4 : PgError) (st4 : PgState),
            st3.execute (.insertMany w t count) rows = (.error e4, st4) →
            processGroup st w t count rows = ([.PostgresError e4], st4) ∧
            st4.log = st.log ++ [.insertMany w t count, .createWorld w t,
              .createWorldIndex w t, .insertMany w t count]) ∧
          (∀ st4 : PgState,
            st3.execute (.insertMany w t count) rows = (.ok (), st4) →
            processGroup st w t count rows = ([], st4) ∧
            st4.log = st.log ++ [.insertMany w t count, .createWorld w t,
              .createWorldIndex w t, .insertMany w t count])))) := by
  constructor
  · intro e st1 h1 hne
    have hl1 : st1.log = st.log ++ [Query.insertMany w t count] := by
      have := execute_log st (.insertMany w t count) rows
      rw [h1] at this
      exact this
    cases e with
    | nonDbError => exact ⟨by simp [processGroup, h1], hl1⟩
    | dbError code =>
      have hcode : code ≠ SqlState.undefinedTable := by
        intro hcc; exact hne (by rw [hcc])
      exact ⟨by simp [processGroup, h1, hcode], hl1⟩
  · intro st1 h1
    have hl1 : st1.log = st.log ++ [Query.insertMany w t count] := by
      have := execute_log st (.insertMany w t count) rows
      rw [h1] at this
      exact this
    constructor
    · intro e2 st2 h2
      have hl2 : st2.log = st1.log ++ [Query.createWorld w t] := by
        have := execute_log st1 (.createWorld w t) []
        rw [h2] at this
        exact this
      exact ⟨by simp [processGroup, h1, h2], by rw [hl2, hl1]; simp⟩
    · intro st2 h2
      have hl2 : st2.log = st1.log ++ [Query.createWorld w t] := by
        have := execute_log st1 (.createWorld w t) []
        rw [h2] at this
        exact this
      constructor
      · intro e3 st3 h3
        have hl3 : st3.log = st2.log ++ [Query.createWorldIndex w t] := by
          have := execute_log st2 (.createWorldIndex w t) []
          rw [h3] at this
          exact this
        exact ⟨by simp [processGroup, h1, h2, h3], by rw [hl3, hl2, hl1]; simp⟩
      · intro st3 h3
        have hl3 : st3.log = st2.log ++ [Query.createWorldIndex w t] := by
          have := execute_log st2 (.createWorldIndex w t) []
          rw [h3] at this
          exact this
        constructor
        · intro e4 st4 h4
          have hl4 : st4.log = st3.log ++ [Query.insertMany w t count] := by
            have := execute_log st3 (.insertMany w t count) rows
            rw [h4] at this
            exact this
          exact ⟨by simp [processGroup, h1, h2, h3, h4],
            by rw [hl4, hl3, hl2, hl1]; simp⟩
        · intro st4 h4
          have hl4 : st4.log = st3.log ++ [Query.insertMany w t count] := by
            have := execute_log st3 (.insertMany w t count) rows
            rw [h4] at this
            exact this
          exact ⟨by simp [processGroup, h1, h2, h3, h4],
            by rw [hl4, hl3, hl2, hl1]; simp⟩

/-- Witness for C2: on the quiescent store (shard table absent, no faults)
the bulk insert fails with "relation does not exist", the engine creates
table and index and retries exactly once, the retry succeeds, no failure is
recorded, and the log shows precisely the four statements in order. -/
theorem insert_group_remediation_protocol_witness :
    (processGroup emptyPg "overworld" 0 1 [sampleRow]).1 = [] ∧
    (processGroup emptyPg "overworld" 0 1 [sampleRow]).2.log =
      emptyPg.log ++ [.insertMany "overworld" 0 1, .createWorld "overworld" 0,
        .createWorldIndex "overworld" 0, .insertMany "overworld" 0 1] := by
  have h := ((((insert_group_remediation_protocol emptyPg "overworld" 0 1
    [sampleRow]).2 _ rfl).2 _ rfl).2 _ rfl).2 _ rfl
  exact ⟨by rw [h.1], h.2⟩

/-- C4: during the create-on-miss remediation, an already existing relation
is tolerated: if the shard table exists while the initial bulk insert was
reported as "relation does not exist" (the benign concurrent-creation race),
and no fault is injected into the remediation calls, then creating table and
index raises nothing, no failure is recorded, and the retried insert
persists the whole group. -/
theorem create_on_miss_tolerates_existing_relation (st : PgState) (w : String)
    (t : Int) (count : Nat) (rows : List Row)
    (hmem : (w, t) ∈ st.tables)
    (hf0 : st.faults st.calls = some (.dbError .undefinedTable))
    (hf1 : st.faults (st.calls + 1) = none)
    (hf2 : st.faults (st.calls + 2) = none)
    (hf3 : st.faults (st.calls + 3) = none) :
    (processGroup st w t count rows).1 = [] ∧
    (processGroup st w t count rows).2.rows =
      st.rows ++ rows.map (fun r => (w, t, r)) ∧
    (processGroup st w t count rows).2.tables = st.tables := by
  refine ⟨?_, ?_, ?_⟩ <;>
    simp [processGroup, PgState.execute, PgState.bump, hf0, hf1, hf2, hf3, hmem]

/-- Witness for C4: on the concrete raced store the group is persisted with
no recorded failure and the table set is unchanged. -/
theorem create_on_miss_tolerates_existing_relation_witness :
    (processGroup racePg "overworld" 0 1 [sampleRow]).1 = [] ∧
    (processGroup racePg "overworld" 0 1 [sampleRow]).2.rows =
      racePg.rows ++ [sampleRow].map (fun r => ("overworld", 0, r)) ∧
    (processGroup racePg "overworld" 0 1 [sampleRow]).2.tables = racePg.tables :=
  create_on_miss_tolerates_existing_relation racePg "overworld" 0 1 [sampleRow]
    (List.mem_cons_self _ _) rfl rfl rfl rfl

theorem querySelect_log (st : PgState) (w : String) (t rid : Int) :
    (st.querySelect w t rid).2.log = st.log ++ [Query.selectRecords w t] := by
  unfold PgState.querySelect
  cases st.faults st.calls with
  | some e => rfl
  | none => dsimp only; split <;> rfl

/-! ## Claim about the read path -/

/-- C3: `get_records_in_region` never creates shard schema: after a
successful resolution it issues exactly one read (and nothing else), a
missing physical shard table surfaces as an explicit "relation does not
exist" error rather than a silently empty result, any backing-store failure
aborts the whole call with an error, and a successful call returns the full
matching row set. -/
theorem get_records_in_region_strict (c : DatabaseClient) (w : String) (p : Vector3) :
    (∀ (e : DatabaseError) (c1 : DatabaseClient), c.lookup_ids w p = (.error e, c1) →
      c.get_records_in_region w p = (.error e, c1)) ∧
    (∀ (t rid : Int) (c1 : DatabaseClient), c.lookup_ids w p = (.ok (t, rid), c1) →
      ((c.get_records_in_region w p).2.client.log =
        c1.client.log ++ [Query.selectRecords w t]) ∧
      ((w, t) ∉ c1.client.tables → c1.client.faults c1.client.calls = none →
        (c.get_records_in_region w p).1 =
          .error (.PostgresError (.dbError .undefinedTable))) ∧
      (∀ (e : PgError) (st1 : PgState), c1.client.querySelect w t rid = (.error e, st1) →
        (c.get_records_in_region w p).1 = .error (.PostgresError e)) ∧
      (∀ (rws : List Row) (st1 : PgState), c1.client.querySelect w t rid = (.ok rws, st1) →
        (c.get_records_in_region w p).1 =
          .ok (rws.map (fun row => Record.from_postgres_row row w)))) := by
  constructor
  · intro e c1 h
    simp [DatabaseClient.get_records_in_region, h]
  · intro t rid c1 hlk
    refine ⟨?_, ?_, ?_, ?_⟩
    · rcases hq : c1.client.querySelect w t rid with ⟨res, st1⟩
      have hlog := querySelect_log c1.client w t rid
      rw [hq] at hlog
      cases res <;>
        · simp [DatabaseClient.get_records_in_region, hlk, hq]
          exact hlog
    · intro hmem hf
      have hq : c1.client.querySelect w t rid =
          (.error (.dbError .undefinedTable),
           c1.client.bump (.selectRecords w t)) := by
        simp [PgState.querySelect, hf, hmem]
      simp [DatabaseClient.get_records_in_region, hlk, hq]
    · intro e st1 hq
      simp [DatabaseClient.get_records_in_region, hlk, hq]
    · intro rws st1 hq
      simp [DatabaseClient.get_records_in_region, hlk, hq]

/-- Witness for C3: on the sample client the region resolves (a registry
entry is created) yet the physical shard table does not exist, and the read
aborts with the explicit "relation does not exist" storage error. -/
theorem get_records_in_region_strict_witness :
    (sampleClient.get_records_in_region "overworld" ⟨1, 2, 3⟩).1 =
      .error (.PostgresError (.dbError .undefinedTable)) := by
  have h := (get_records_in_region_strict sampleClient "overworld" ⟨1, 2, 3⟩).2 0 1 _ rfl
  exact h.2.1 (by decide) rfl

/-! ## Shape lemmas for execution and resolution -/

theorem execute_error_state (st : PgState) (q : Query) (params : List Row)
    (e : PgError) (st1 : PgState) (h : st.execute q params = (.error e, st1)) :
    st1 = st.bump q := by
  unfold PgState.execute at h
  cases hf : st.faults st.calls <;> rw [hf] at h <;> dsimp only at h
  · cases q <;> dsimp only at h
    all_goals first
      | (split at h <;> simp_all)
      | simp_all
  · simp_all

theorem execute_ok_insert_rows (st : PgState) (w : String) (t : Int) (count : Nat)
    (rows : List Row) (st1 : PgState)
    (h : st.execute (.insertMany w t count) rows = (.ok (), st1)) :
    st1.rows = st.rows ++ rows.map (fun r => (w, t, r)) := by
  unfold PgState.execute at h
  cases hf : st.faults st.calls <;> rw [hf] at h <;> dsimp only at h
  · split at h
    · simp only [Prod.mk.injEq, true_and] at h
      rw [← h]
      rfl
    · simp_all
  · simp_all

theorem execute_createWorld_rows (st : PgState) (w : String) (t : Int)
    (params : List Row) : (st.execute (.createWorld w t) params).2.rows = st.rows := by
  unfold PgState.execute
  cases st.faults st.calls <;> rfl

theorem execute_createWorldIndex_rows (st : PgState) (w : String) (t : Int)
    (params : List Row) :
    (st.execute (.createWorldIndex w t) params).2.rows = st.rows := by
  unfold PgState.execute
  cases st.faults st.calls <;> rfl

theorem registryFindOrCreate_rows (st : PgState) (wr : WorldRegion) :
    (st.registryFindOrCreate wr).2.rows = st.rows := by
  unfold PgState.registryFindOrCreate
  cases st.faults st.calls
  · cases st.registry.find? (fun e => decide (e.1 = wr)) <;> rfl
  · rfl

theorem lookup_ids_client (c : DatabaseClient) (w : String) (pos : Vector3) :
    (c.lookup_ids w pos).2.client = c.client ∨
    ∃ wr : WorldRegion,
      (c.lookup_ids w pos).2.client = (c.client.registryFindOrCreate wr).2 := by
  unfold DatabaseClient.lookup_ids
  cases htg : (c.table_cache.get
      (WorldRegion.ofPosition w pos c.region_x_size c.region_y_size c.region_z_size)).1 with
  | some t =>
    cases hrg : (c.region_cache.get
        (WorldRegion.ofPosition w pos c.region_x_size c.region_y_size c.region_z_size)).1 with
    | some rid => exact Or.inl (by simp [htg, hrg])
    | none =>
      rcases hreg : c.client.registryFindOrCreate
          (WorldRegion.ofPosition w pos c.region_x_size c.region_y_size c.region_z_size) with
        ⟨res, pg⟩
      cases res with
      | error e => exact Or.inr ⟨WorldRegion.ofPosition w pos c.region_x_size
          c.region_y_size c.region_z_size, by simp [htg, hrg, hreg]⟩
      | ok rid => exact Or.inr ⟨WorldRegion.ofPosition w pos c.region_x_size
          c.region_y_size c.region_z_size, by simp [htg, hrg, hreg]⟩
  | none =>
    rcases hreg : c.client.registryFindOrCreate
        (WorldRegion.ofPosition w pos c.region_x_size c.region_y_size c.region_z_size) with
      ⟨res, pg⟩
    cases res with
    | error e => exact Or.inr ⟨WorldRegion.ofPosition w pos c.region_x_size
        c.region_y_size c.region_z_size, by simp [htg, hreg]⟩
    | ok rid => exact Or.inr ⟨WorldRegion.ofPosition w pos c.region_x_size
        c.region_y_size c.region_z_size, by simp [htg, hreg]⟩

theorem lookup_ids_rows (c : DatabaseClient) (w : String) (pos : Vector3) :
    (c.lookup_ids w pos).2.client.rows = c.client.rows := by
  rcases lookup_ids_client c w pos with h | ⟨wr, h⟩
  · rw [h]
  · rw [h, registryFindOrCreate_rows]

/-! ## Accounting lemmas for the batch insert -/

theorem totalRows_tableMapAdd (m : TableMap) (k : String × Int) (r : Row) :
    totalRows (tableMapAdd m k r) = totalRows m + 1 := by
  induction m with
  | nil => simp [tableMapAdd, totalRows]
  | cons e rest ih =>
    by_cases h : e.1 = k
    · simp [tableMapAdd, h, totalRows]
      omega
    · simp [tableMapAdd, h, totalRows] at ih ⊢
      omega

theorem tableMapAdd_nonempty (m : TableMap) (k : String × Int) (r : Row)
    (h : ∀ g ∈ m, 1 ≤ g.2.2.length) : ∀ g ∈ tableMapAdd m k r, 1 ≤ g.2.2.length := by
  induction m with
  | nil =>
    intro g hg
    simp only [tableMapAdd, List.mem_singleton] at hg
    subst hg
    simp
  | cons e rest ih =>
    intro g hg
    by_cases he : e.1 = k
    · simp only [tableMapAdd, if_pos he, List.mem_cons] at hg
      rcases hg with hg | hg
      · subst hg; simp
      · exact h g (by simp [hg])
    · simp only [tableMapAdd, if_neg he, List.mem_cons] at hg
      rcases hg with hg | hg
      · subst hg; exact h g (by simp)
      · exact ih (fun g2 hg2 => h g2 (by simp [hg2])) g hg

theorem processGroup_outcome (st : PgState) (w : String) (t : Int) (count : Nat)
    (rows : List Row) :
    ((processGroup st w t count rows).1 = [] ∧
      (processGroup st w t count rows).2.rows.length = st.rows.length + rows.length) ∨
    (∃ e : DatabaseError, (processGroup st w t count rows).1 = [e] ∧
      (processGroup st w t count rows).2.rows.length = st.rows.length) := by
  rcases h1 : st.execute (.insertMany w t count) rows with ⟨res1, st1⟩
  cases res1 with
  | ok u =>
    cases u
    have hpg : processGroup st w t count rows = ([], st1) := by
      simp [processGroup, h1]
    rw [hpg]
    exact Or.inl ⟨rfl, by simp [execute_ok_insert_rows st w t count rows st1 h1]⟩
  | error e =>
    have hst1 : st1.rows = st.rows := by
      rw [execute_error_state st _ _ _ _ h1]
      rfl
    cases e with
    | nonDbError =>
      have hpg : processGroup st w t count rows =
          ([.PostgresError .nonDbError], st1) := by
        simp [processGroup, h1]
      rw [hpg]
      exact Or.inr ⟨_, rfl, by rw [hst1]⟩
    | dbError code =>
      by_cases hcode : code = SqlState.undefinedTable
      · subst hcode
        rcases h2 : st1.execute (.createWorld w t) [] with ⟨res2, st2⟩
        cases res2 with
        | error e2 =>
          have hpg : processGroup st w t count rows = ([.PostgresError e2], st2) := by
            simp [processGroup, h1, h2]
          rw [hpg]
          refine Or.inr ⟨_, rfl, ?_⟩
          rw [execute_error_state st1 _ _ _ _ h2]
          simp [PgState.bump, hst1]
        | ok u2 =>
          cases u2
          have hst2 : st2.rows = st.rows := by
            have := execute_createWorld_rows st1 w t []
            rw [h2] at this
            rw [this, hst1]
          rcases h3 : st2.execute (.createWorldIndex w t) [] with ⟨res3, st3⟩
          cases res3 with
          | error e3 =>
            have hpg : processGroup st w t count rows = ([.PostgresError e3], st3) := by
              simp [processGroup, h1, h2, h3]
            rw [hpg]
            refine Or.inr ⟨_, rfl, ?_⟩
            rw [execute_error_state st2 _ _ _ _ h3]
            simp [PgState.bump, hst2]
          | ok u3 =>
            cases u3
            have hst3 : st3.rows = st.rows := by
              have := execute_createWorldIndex_rows st2 w t []
              rw [h3] at this
              rw [this, hst2]
            rcases h4 : st3.execute (.insertMany w t count) rows with ⟨res4, st4⟩
            cases res4 with
            | error e4 =>
              have hpg : processGroup st w t count rows = ([.PostgresError e4], st4) := by
                simp [processGroup, h1, h2, h3, h4]
              rw [hpg]
              refine Or.inr ⟨_, rfl, ?_⟩
              rw [execute_error_state st3 _ _ _ _ h4]
              simp [PgState.bump, hst3]
            | ok u4 =>
              cases u4
              have hpg : processGroup st w t count rows = ([], st4) := by
                simp [processGroup, h1, h2, h3, h4]
              rw [hpg]
              refine Or.inl ⟨rfl, ?_⟩
              rw [execute_ok_insert_rows st3 w t count rows st4 h4, hst3]
              simp
      · have hpg : processGroup st w t count rows =
            ([.PostgresError (.dbError code)], st1) := by
          simp [processGroup, h1, hcode]
        rw [hpg]
        exact Or.inr ⟨_, rfl, by rw [hst1]⟩

theorem processGroups_outcome (m : TableMap) (st : PgState) :
    (processGroups st m).2.rows.length ≤ st.rows.length + totalRows m ∧
    ((processGroups st m).1 = [] →
      (processGroups st m).2.rows.length = st.rows.length + totalRows m) ∧
    ((processGroups st m).1 ≠ [] → (∀ g ∈ m, 1 ≤ g.2.2.length) →
      (processGroups st m).2.rows.length < st.rows.length + totalRows m) := by
  induction m generalizing st with
  | nil =>
    refine ⟨by simp [processGroups, totalRows], by simp [processGroups, totalRows], ?_⟩
    intro h
    simp [processGroups] at h
  | cons g rest ih =>
    have htotal : totalRows (g :: rest) = g.2.2.length + totalRows rest := by
      simp [totalRows]
    rcases processGroup_outcome st g.1.1 g.1.2 g.2.1 g.2.2 with
      ⟨hpe, hpl⟩ | ⟨e, hpe, hpl⟩
    · obtain ⟨ih1, ih2, ih3⟩ := ih (processGroup st g.1.1 g.1.2 g.2.1 g.2.2).2
      refine ⟨?_, ?_, ?_⟩
      · simp only [processGroups, htotal]
        omega
      · intro h
        simp only [processGroups] at h ⊢
        rcases List.append_eq_nil.1 h with ⟨h1, h2⟩
        rw [ih2 h2, hpl, htotal]
        omega
      · intro h hne
        simp only [processGroups] at h ⊢
        have hq : (processGroups (processGroup st g.1.1 g.1.2 g.2.1 g.2.2).2 rest).1 ≠ [] := by
          intro hq0
          rw [hpe, hq0] at h
          exact h rfl
        have := ih3 hq (fun g2 hg2 => hne g2 (by simp [hg2]))
        rw [htotal]
        omega
    · obtain ⟨ih1, ih2, ih3⟩ := ih (processGroup st g.1.1 g.1.2 g.2.1 g.2.2).2
      refine ⟨?_, ?_, ?_⟩
      · simp only [processGroups, htotal]
        omega
      · intro h
        simp only [processGroups] at h
        rcases List.append_eq_nil.1 h with ⟨h1, h2⟩
        rw [hpe] at h1
        exact absurd h1 (by simp)
      · intro h hne
        have hg1 : 1 ≤ g.2.2.length := hne g (by simp)
        simp only [processGroups, htotal]
        omega

theorem insertPhase1_spec (san : Sanitizer) (records : List Record) :
    ∀ (c : DatabaseClient) (m : TableMap) (errs errs2 : List DatabaseError)
      (m2 : TableMap) (c2 : DatabaseClient),
    insertPhase1 san c records m errs = some (errs2, m2, c2) →
    totalRows m2 + errs2.length = totalRows m + errs.length + records.length ∧
    c2.client.rows = c.client.rows ∧
    ((∀ g ∈ m, 1 ≤ g.2.2.length) → (∀ g ∈ m2, 1 ≤ g.2.2.length)) := by
  induction records with
  | nil =>
    intro c m errs errs2 m2 c2 h
    simp only [insertPhase1, Option.some.injEq, Prod.mk.injEq] at h
    obtain ⟨h1, h2, h3⟩ := h
    subst h1; subst h2; subst h3
    exact ⟨by simp, rfl, fun h => h⟩
  | cons r rest ih =>
    intro c m errs errs2 m2 c2 h
    cases hp : r.position with
    | none => rw [insertPhase1, hp] at h; exact absurd h (by simp)
    | some pos =>
      cases hs : san r.world_name with
      | error e =>
        rw [insertPhase1, hp] at h
        simp only [hs] at h
        obtain ⟨g1, g2, g3⟩ := ih c m (errs ++ [.InvalidWorldName e]) errs2 m2 c2 h
        refine ⟨?_, g2, g3⟩
        simp only [List.length_append, List.length_cons, List.length_nil] at g1
        simp only [List.length_cons]
        omega
      | ok w =>
        rcases hlk : c.lookup_ids w pos with ⟨res, c1⟩
        have hrows : c1.client.rows = c.client.rows := by
          have := lookup_ids_rows c w pos
          rw [hlk] at this
          exact this
        cases res with
        | error e =>
          rw [insertPhase1, hp] at h
          simp only [hs, hlk] at h
          obtain ⟨g1, g2, g3⟩ := ih c1 m (errs ++ [e]) errs2 m2 c2 h
          refine ⟨?_, by rw [g2, hrows], g3⟩
          simp only [List.length_append, List.length_cons, List.length_nil] at g1
          simp only [List.length_cons]
          omega
        | ok tr =>
          rcases tr with ⟨t, rid⟩
          rw [insertPhase1, hp] at h
          simp only [hs, hlk] at h
          obtain ⟨g1, g2, g3⟩ := ih c1
            (tableMapAdd m (w, t) (recordRow rid pos r)) errs errs2 m2 c2 h
          rw [totalRows_tableMapAdd] at g1
          refine ⟨?_, by rw [g2, hrows], fun hne => g3 (tableMapAdd_nonempty m _ _ hne)⟩
          simp only [List.length_cons]
          omega

theorem insertPhase1_errs_acc (san : Sanitizer) (records : List Record) :
    ∀ (c : DatabaseClient) (m : TableMap) (errs : List DatabaseError),
    insertPhase1 san c records m errs =
      (insertPhase1 san c records m []).map (fun r => (errs ++ r.1, r.2.1, r.2.2)) := by
  induction records with
  | nil => intro c m errs; simp [insertPhase1]
  | cons r rest ih =>
    intro c m errs
    cases hp : r.position with
    | none => simp [insertPhase1, hp]
    | some pos =>
      cases hs : san r.world_name with
      | error e =>
        simp only [insertPhase1, hp, hs, List.nil_append]
        rw [ih c m (errs ++ [DatabaseError.InvalidWorldName e]),
          ih c m [DatabaseError.InvalidWorldName e]]
        cases insertPhase1 san c rest m [] <;> simp
      | ok w =>
        rcases hlk : c.lookup_ids w pos with ⟨res, c1⟩
        cases res with
        | error e =>
          simp only [insertPhase1, hp, hs, hlk, List.nil_append]
          rw [ih c1 m (errs ++ [e]), ih c1 m [e]]
          cases insertPhase1 san c1 rest m [] <;> simp
        | ok tr =>
          rcases tr with ⟨t, rid⟩
          simp only [insertPhase1, hp, hs, hlk]
          exact ih c1 (tableMapAdd m (w, t) (recordRow rid pos r)) errs

/-! ## Claim about batch-insert failure accounting -/

/-- C1: `insert_records` attempts every record and never aborts early, and
the returned failure list is the complete and exact account of what did not
persist: the failure list is empty exactly when every record of the batch
was persisted, never more rows are persisted than the batch holds, a record
whose world name fails validation is recorded once and skipped while the
remaining records are processed identically, and a record whose id
resolution fails contributes exactly its one resolution failure and is
skipped (never grouped or persisted) while the remaining records are
processed exactly as a batch starting from the post-lookup client. -/
theorem insert_records_failure_accounting (c : DatabaseClient) (san : Sanitizer)
    (records : List Record) (hpos : ∀ r ∈ records, r.position.isSome) :
    ∃ (errs : List DatabaseError) (c2 : DatabaseClient),
      c.insert_records san records = some (errs, c2) ∧
      (errs = [] ↔ c2.client.rows.length = c.client.rows.length + records.length) ∧
      c2.client.rows.length ≤ c.client.rows.length + records.length ∧
      (∀ (bad : Record) (e : SanitizeError), bad.position.isSome →
        san bad.world_name = .error e →
        c.insert_records san (bad :: records) =
          some (.InvalidWorldName e :: errs, c2)) ∧
      (∀ (bad : Record) (bpos : Vector3) (w : String) (e : DatabaseError)
        (cb : DatabaseClient),
        bad.position = some bpos →
        san bad.world_name = .ok w →
        c.lookup_ids w bpos = (.error e, cb) →
        ∀ (errs2 : List DatabaseError) (c3 : DatabaseClient),
          cb.insert_records san records = some (errs2, c3) →
          c.insert_records san (bad :: records) = some (e :: errs2, c3)) := by
  rcases ho : insertPhase1 san c records [] [] with _ | ⟨⟨errs1, m1, c1⟩⟩
  · have hsome := insertPhase1_isSome san records hpos c [] []
    rw [ho] at hsome
    simp at hsome
  · obtain ⟨g1, g2, g3⟩ := insertPhase1_spec san records c [] [] errs1 m1 c1 ho
    have hg1 : totalRows m1 + errs1.length = records.length := by
      simpa [totalRows] using g1
    have hne : ∀ g ∈ m1, 1 ≤ g.2.2.length := g3 (by simp)
    obtain ⟨p1, p2, p3⟩ := processGroups_outcome m1 c1.client
    have hcrows : c1.client.rows.length = c.client.rows.length := by rw [g2]
    refine ⟨errs1 ++ (processGroups c1.client m1).1,
      { c1 with client := (processGroups c1.client m1).2 }, ?_, ?_, ?_, ?_, ?_⟩
    · simp [DatabaseClient.insert_records, ho]
    · refine ⟨fun h => ?_, fun h => ?_⟩
      · rcases List.append_eq_nil.1 h with ⟨h1, h2⟩
        have hq2 := p2 h2
        have he0 : errs1.length = 0 := by rw [h1]; rfl
        show (processGroups c1.client m1).2.rows.length =
          c.client.rows.length + records.length
        omega
      · show errs1 ++ (processGroups c1.client m1).1 = []
        have hlen : (processGroups c1.client m1).2.rows.length =
            c.client.rows.length + records.length := h
        cases hq : (processGroups c1.client m1).1 with
        | nil =>
          have hq2 := p2 hq
          have he0 : errs1.length = 0 := by omega
          rw [List.length_eq_zero.1 he0]
          rfl
        | cons a l =>
          exfalso
          have hlt := p3 (by simp [hq]) hne
          omega
    · show (processGroups c1.client m1).2.rows.length ≤
        c.client.rows.length + records.length
      omega
    · intro bad e hbadpos hbade
      cases hbp : bad.position with
      | none => rw [hbp] at hbadpos; simp at hbadpos
      | some bpos =>
        have hph : insertPhase1 san c (bad :: records) [] [] =
            some (.InvalidWorldName e :: errs1, m1, c1) := by
          rw [insertPhase1, hbp]
          simp only [hbade, List.nil_append]
          rw [insertPhase1_errs_acc san records c []
            [DatabaseError.InvalidWorldName e], ho]
          simp
        simp [DatabaseClient.insert_records, hph]
    · intro bad bpos w e cb hbp hbs hblk errs2 c3 hrun
      rcases ho2 : insertPhase1 san cb records [] [] with _ | ⟨⟨errs1b, m1b, cb2⟩⟩
      · simp [DatabaseClient.insert_records, ho2] at hrun
      · have hrun2 : cb.insert_records san records =
            some (errs1b ++ (processGroups cb2.client m1b).1,
              { cb2 with client := (processGroups cb2.client m1b).2 }) := by
          simp [DatabaseClient.insert_records, ho2]
        rw [hrun2] at hrun
        simp only [Option.some.injEq, Prod.mk.injEq] at hrun
        obtain ⟨he2, hc3⟩ := hrun
        have hph : insertPhase1 san c (bad :: records) [] [] =
            some (e :: errs1b, m1b, cb2) := by
          rw [insertPhase1, hbp]
          simp only [hbs, hblk, List.nil_append]
          rw [insertPhase1_errs_acc san records cb [] [e], ho2]
          simp
        rw [← he2, ← hc3]
        simp [DatabaseClient.insert_records, hph]

/-- Witness for C1: the accounting applied to a concrete one-record batch on
the sample client. -/
theorem insert_records_failure_accounting_witness :
    ∃ (errs : List DatabaseError) (c2 : DatabaseClient),
      sampleClient.insert_records sampleSanitizer [sampleRecord] = some (errs, c2) ∧
      (errs = [] ↔ c2.client.rows.length = sampleClient.client.rows.length + 1) := by
  obtain ⟨errs, c2, h1, h2, h3, h4, h5⟩ := insert_records_failure_accounting
    sampleClient sampleSanitizer [sampleRecord] (by decide)
  exact ⟨errs, c2, h1, by simpa using h2⟩

/-! ## Congruence lemmas for the refinement of the single-record path -/

theorem execute_insert_variants (st : PgState) (w : String) (t : Int) (count : Nat)
    (rows : List Row) :
    (st.execute (.insertOne w t) rows).1 = (st.execute (.insertMany w t count) rows).1 ∧
    (st.execute (.insertOne w t) rows).2.core =
      (st.execute (.insertMany w t count) rows).2.core ∧
    (st.execute (.insertOne w t) rows).2.faults =
      (st.execute (.insertMany w t count) rows).2.faults := by
  unfold PgState.execute PgState.bump
  cases st.faults st.calls <;> dsimp only
  · split <;> exact ⟨rfl, rfl, rfl⟩
  · exact ⟨rfl, rfl, rfl⟩

theorem execute_congr (st st2 : PgState) (q : Query) (params : List Row)
    (hcore : st.core = st2.core) (hfaults : st.faults = st2.faults) :
    (st.execute q params).1 = (st2.execute q params).1 ∧
    (st.execute q params).2.core = (st2.execute q params).2.core ∧
    (st.execute q params).2.faults = (st2.execute q params).2.faults := by
  simp only [PgState.core, Prod.mk.injEq] at hcore
  obtain ⟨h1, h2, h3, h4, h5, h6⟩ := hcore
  unfold PgState.execute PgState.bump
  rw [hfaults, h6]
  cases st2.faults st2.calls with
  | some e =>
    exact ⟨rfl, by simp [PgState.core, h1, h2, h3, h4, h5, h6], by simp [hfaults]⟩
  | none =>
    cases q <;> dsimp only
    case insertMany w t count =>
      rw [h1]
      split <;>
        exact ⟨rfl, by simp [PgState.core, h1, h2, h3, h4, h5, h6], by simp [hfaults]⟩
    case insertOne w t =>
      rw [h1]
      split <;>
        exact ⟨rfl, by simp [PgState.core, h1, h2, h3, h4, h5, h6], by simp [hfaults]⟩
    case createWorld w t =>
      exact ⟨rfl, by simp [PgState.core, h1, h2, h3, h4, h5, h6], by simp [hfaults]⟩
    case createWorldIndex w t =>
      exact ⟨rfl, by simp [PgState.core, h1, h2, h3, h4, h5, h6], by simp [hfaults]⟩
    case selectRecords wq tq =>
      exact ⟨rfl, by simp [PgState.core, h1, h2, h3, h4, h5, h6], by simp [hfaults]⟩
    case registryLookup wr =>
      exact ⟨rfl, by simp [PgState.core, h1, h2, h3, h4, h5, h6], by simp [hfaults]⟩

/-! ## Claim: the single-record path refines the one-record batch -/

/-- C10: `insert_record` has semantics identical to `insert_records` on the
one-record batch: the same validate, resolve, insert sequence with the same
create-table, create-index, retry-exactly-once remediation; it succeeds iff
the batch path records no failure, fails with exactly the batch path's
single error otherwise, and the resulting clients agree on everything
except the statement log (single- versus multi-row variant of the same
insert). -/
theorem insert_record_refines_batch (c : DatabaseClient) (san : Sanitizer)
    (record : Record) (hpos : record.position.isSome) :
    ∃ (res : Except DatabaseError Unit) (c1 : DatabaseClient)
      (errs : List DatabaseError) (c2 : DatabaseClient),
      c.insert_record san record = some (res, c1) ∧
      c.insert_records san [record] = some (errs, c2) ∧
      (res = .ok () ↔ errs = []) ∧
      (∀ e : DatabaseError, res = .error e ↔ errs = [e]) ∧
      c1.core = c2.core ∧ c1.client.faults = c2.client.faults := by
  cases hp : record.position with
  | none => rw [hp] at hpos; simp at hpos
  | some pos =>
    cases hs : san record.world_name with
    | error e0 =>
      refine ⟨.error (.InvalidWorldName e0), c, [.InvalidWorldName e0],
        { c with client := (processGroups c.client []).2 }, ?_, ?_, ?_, ?_, ?_, ?_⟩
      · simp [DatabaseClient.insert_record, hp, hs]
      · simp [DatabaseClient.insert_records, insertPhase1, hp, hs, processGroups]
      · simp
      · intro e; simp
      · simp [DatabaseClient.core, PgState.core, processGroups]
      · simp [processGroups]
    | ok w =>
      rcases hlk : c.lookup_ids w pos with ⟨lres, c1⟩
      cases lres with
      | error e0 =>
        refine ⟨.error e0, c1, [e0],
          { c1 with client := (processGroups c1.client []).2 }, ?_, ?_, ?_, ?_, ?_, ?_⟩
        · simp [DatabaseClient.insert_record, hp, hs, hlk]
        · simp [DatabaseClient.insert_records, insertPhase1, hp, hs, hlk, processGroups]
        · simp
        · intro e; simp
        · simp [DatabaseClient.core, PgState.core, processGroups]
        · simp [processGroups]
      | ok tr =>
        rcases tr with ⟨t, rid⟩
        have hbatch : c.insert_records san [record] =
            some ((processGroup c1.client w t 1 [recordRow rid pos record]).1,
              { c1 with client :=
                (processGroup c1.client w t 1 [recordRow rid pos record]).2 }) := by
          simp [DatabaseClient.insert_records, insertPhase1, hp, hs, hlk,
            tableMapAdd, processGroups]
        obtain ⟨hv1, hv2, hv3⟩ := execute_insert_variants c1.client w t 1
          [recordRow rid pos record]
        rcases h1 : c1.client.execute (.insertOne w t) [recordRow rid pos record] with
          ⟨r1, s1⟩
        rcases h1m : c1.client.execute (.insertMany w t 1) [recordRow rid pos record] with
          ⟨r1m, s1m⟩
        rw [h1, h1m] at hv1 hv2 hv3
        dsimp only at hv1 hv2 hv3
        subst hv1
        cases r1 with
        | ok u =>
          cases u
          have hpg : processGroup c1.client w t 1 [recordRow rid pos record] =
              ([], s1m) := by
            simp [processGroup, h1m]
          refine ⟨.ok (), { c1 with client := s1 }, [], { c1 with client := s1m },
            ?_, ?_, ?_, ?_, ?_, ?_⟩
          · simp [DatabaseClient.insert_record, hp, hs, hlk, h1]
          · rw [hbatch, hpg]
          · simp
          · intro e; simp
          · simp [DatabaseClient.core, hv2]
          · exact hv3
        | error e1 =>
          cases e1 with
          | nonDbError =>
            have hpg : processGroup c1.client w t 1 [recordRow rid pos record] =
                ([.PostgresError .nonDbError], s1m) := by
              simp [processGroup, h1m]
            refine ⟨.error (.PostgresError .nonDbError), { c1 with client := s1 },
              [.PostgresError .nonDbError], { c1 with client := s1m },
              ?_, ?_, ?_, ?_, ?_, ?_⟩
            · simp [DatabaseClient.insert_record, hp, hs, hlk, h1]
            · rw [hbatch, hpg]
            · simp
            · intro e; simp
            · simp [DatabaseClient.core, hv2]
            · exact hv3
          | dbError code =>
            by_cases hcode : code = SqlState.undefinedTable
            · subst hcode
              obtain ⟨hw1, hw2, hw3⟩ :=
                execute_congr s1 s1m (.createWorld w t) [] hv2 hv3
              rcases h2 : s1.execute (.createWorld w t) [] with ⟨r2, s2⟩
              rcases h2m : s1m.execute (.createWorld w t) [] with ⟨r2m, s2m⟩
              rw [h2, h2m] at hw1 hw2 hw3
              dsimp only at hw1 hw2 hw3
              subst hw1
              cases r2 with
              | error e2 =>
                have hpg : processGroup c1.client w t 1 [recordRow rid pos record] =
                    ([.PostgresError e2], s2m) := by
                  simp [processGroup, h1m, h2m]
                refine ⟨.error (.PostgresError e2), { c1 with client := s2 },
                  [.PostgresError e2], { c1 with client := s2m },
                  ?_, ?_, ?_, ?_, ?_, ?_⟩
                · simp [DatabaseClient.insert_record, hp, hs, hlk, h1, h2]
                · rw [hbatch, hpg]
                · simp
                · intro e; simp
                · simp [DatabaseClient.core, hw2]
                · exact hw3
              | ok u2 =>
                cases u2
                obtain ⟨hx1, hx2, hx3⟩ :=
                  execute_congr s2 s2m (.createWorldIndex w t) [] hw2 hw3
                rcases h3 : s2.execute (.createWorldIndex w t) [] with ⟨r3, s3⟩
                rcases h3m : s2m.execute (.createWorldIndex w t) [] with ⟨r3m, s3m⟩
                rw [h3, h3m] at hx1 hx2 hx3
                dsimp only at hx1 hx2 hx3
                subst hx1
                cases r3 with
                | error e3 =>
                  have hpg : processGroup c1.client w t 1 [recordRow rid pos record] =
                      ([.PostgresError e3], s3m) := by
                    simp [processGroup, h1m, h2m, h3m]
                  refine ⟨.error (.PostgresError e3), { c1 with client := s3 },
                    [.PostgresError e3], { c1 with client := s3m },
                    ?_, ?_, ?_, ?_, ?_, ?_⟩
                  · simp [DatabaseClient.insert_record, hp, hs, hlk, h1, h2, h3]
                  · rw [hbatch, hpg]
                  · simp
                  · intro e; simp
                  · simp [DatabaseClient.core, hx2]
                  · exact hx3
                | ok u3 =>
                  cases u3
                  obtain ⟨hy1a, hy2a, hy3a⟩ :=
                    execute_insert_variants s3 w t 1 [recordRow rid pos record]
                  obtain ⟨hy1b, hy2b, hy3b⟩ :=
                    execute_congr s3 s3m (.insertMany w t 1)
                      [recordRow rid pos record] hx2 hx3
                  have hy1 := hy1a.trans hy1b
                  have hy2 := hy2a.trans hy2b
                  have hy3 := hy3a.trans hy3b
                  rcases h4 : s3.execute (.insertOne w t) [recordRow rid pos record] with
                    ⟨r4, s4⟩
                  rcases h4m : s3m.execute (.insertMany w t 1)
                      [recordRow rid pos record] with ⟨r4m, s4m⟩
                  rw [h4, h4m] at hy1 hy2 hy3
                  dsimp only at hy1 hy2 hy3
                  subst hy1
                  cases r4 with
                  | ok u4 =>
                    cases u4
                    have hpg : processGroup c1.client w t 1 [recordRow rid pos record] =
                        ([], s4m) := by
                      simp [processGroup, h1m, h2m, h3m, h4m]
                    refine ⟨.ok (), { c1 with client := s4 }, [],
                      { c1 with client := s4m }, ?_, ?_, ?_, ?_, ?_, ?_⟩
                    · simp [DatabaseClient.insert_record, hp, hs, hlk, h1, h2, h3, h4]
                    · rw [hbatch, hpg]
                    · simp
                    · intro e; simp
                    · simp [DatabaseClient.core, hy2]
                    · exact hy3
                  | error e4 =>
                    have hpg : processGroup c1.client w t 1 [recordRow rid pos record] =
                        ([.PostgresError e4], s4m) := by
                      simp [processGroup, h1m, h2m, h3m, h4m]
                    refine ⟨.error (.PostgresError e4), { c1 with client := s4 },
                      [.PostgresError e4], { c1 with client := s4m },
                      ?_, ?_, ?_, ?_, ?_, ?_⟩
                    · simp [DatabaseClient.insert_record, hp, hs, hlk, h1, h2, h3, h4]
                    · rw [hbatch, hpg]
                    · simp
                    · intro e; simp
                    · simp [DatabaseClient.core, hy2]
                    · exact hy3
            · have hpg : processGroup c1.client w t 1 [recordRow rid pos record] =
                  ([.PostgresError (.dbError code)], s1m) := by
                simp [processGroup, h1m, hcode]
              refine ⟨.error (.PostgresError (.dbError code)), { c1 with client := s1 },
                [.PostgresError (.dbError code)], { c1 with client := s1m },
                ?_, ?_, ?_, ?_, ?_, ?_⟩
              · simp [DatabaseClient.insert_record, hp, hs, hlk, h1, hcode]
              · rw [hbatch, hpg]
              · simp
              · intro e; simp
              · simp [DatabaseClient.core, hv2]
              · exact hv3

/-- Witness for C10: the correspondence applied to the sample record on the
sample client. -/
theorem insert_record_refines_batch_witness :
    ∃ (res : Except DatabaseError Unit) (c1 : DatabaseClient)
      (errs : List DatabaseError) (c2 : DatabaseClient),
      sampleClient.insert_record sampleSanitizer sampleRecord = some (res, c1) ∧
      sampleClient.insert_records sampleSanitizer [sampleRecord] = some (errs, c2) ∧
      (res = .ok () ↔ errs = []) ∧
      c1.core = c2.core :=
  match insert_record_refines_batch sampleClient sampleSanitizer sampleRecord
    (by decide) with
  | ⟨res, c1, errs, c2, h1, h2, h3, _, h5, _⟩ => ⟨res, c1, errs, c2, h1, h2, h3, h5⟩

end WorldQL
